import Mathlib

/-!
# Verification of the caddy-dns-sync reconciliation engine

Shallow embedding of `internal/reconcile/engine.go` (together with the data
types it uses from `internal/reconcile/types.go`, `internal/state/types.go`,
`internal/provider/provider.go` and `internal/source`), and proofs checking
the natural-language specification against it.

Go maps are modelled as association lists with overwrite-on-insert semantics;
the (unspecified) Go map iteration order is determinized to list order.  The
state store and DNS provider collaborators are modelled as response functions,
and the engine records a trace of the collaborator calls it issues.  Machine
integers (TTL, Unix timestamps) are modelled as `Nat`/`Int`; the Go standard
library functions used by the engine (`strings.Contains`, `strings.Cut`,
`net.SplitHostPort`, `net.ParseIP`, ...) are embedded following the Go
library's documented algorithms.
-/

namespace CaddyDnsSync

/-! ## Go `strings` library primitives -/

/-- Embeds `strings.HasPrefix`. -/
def strStartsWith (s p : String) : Bool := p.toList.isPrefixOf s.toList

/-- Embeds `strings.HasSuffix`. -/
def strEndsWith (s p : String) : Bool := p.toList.isSuffixOf s.toList

/-- Helper for `strings.Contains`: does `needle` occur as a contiguous
subsequence of the second argument? -/
def containsSeqAux (needle : List Char) : List Char → Bool
  | [] => needle.isEmpty
  | a :: as => needle.isPrefixOf (a :: as) || containsSeqAux needle as

/-- Embeds `strings.Contains s sub`. -/
def strContains (s sub : String) : Bool := containsSeqAux sub.toList s.toList

/-- Embeds `strings.TrimSuffix`. -/
def trimSuffixStr (s suf : String) : String :=
  if strEndsWith s suf then String.mk (s.toList.take (s.toList.length - suf.toList.length)) else s

/-- Embeds `strings.TrimPrefix s "["` (specialised to the single-character pattern
used by the engine) -/
def dropBracketStart (s : String) : String :=
  if strStartsWith s "[" then String.mk (s.toList.drop 1) else s

/-- Embeds `strings.TrimSuffix s "]"` (specialised to the single-character pattern
used by the engine) -/
def dropBracketEnd (s : String) : String :=
  if strEndsWith s "]" then String.mk (s.toList.take (s.toList.length - 1)) else s

/-- Embeds `strings.Trim s cutset`: drop leading and trailing characters belonging
to `cutset`. -/
def strTrim (s : String) (cutset : List Char) : String :=
  String.mk (((s.toList.dropWhile (cutset.contains ·)).reverse.dropWhile (cutset.contains ·)).reverse)

/-- Embeds `strings.Cut s sep` for a single-character separator: split at the first
occurrence, `none` when the separator does not occur. -/
def cutAtChar (c : Char) : List Char → Option (List Char × List Char)
  | [] => none
  | a :: as => if a == c then some ([], as) else (cutAtChar c as).map (fun p => (a :: p.1, p.2))

/-- Index of the first occurrence of a character. -/
def idxOfChar (cs : List Char) (c : Char) : Option Nat :=
  match cs with
  | [] => none
  | a :: as => if a == c then some 0 else (idxOfChar as c).map (· + 1)

/-- Index of the last occurrence of a character. -/
def lastIdxOf (cs : List Char) (c : Char) : Option Nat :=
  match cs with
  | [] => none
  | a :: as =>
    match lastIdxOf as c with
    | some i => some (i + 1)
    | none => if a == c then some 0 else none

/-! ## Go `net` library primitives -/

/-- Embeds `net.SplitHostPort`: `none` models a non-nil error. -/
def splitHostPort (hostport : String) : Option (String × String) :=
  let cs := hostport.toList
  match lastIdxOf cs ':' with
  | none => none
  | some i =>
    if cs.head? == some '[' then
      match idxOfChar cs ']' with
      | none => none
      | some e =>
        if e + 1 == cs.length then none
        else if e + 1 == i then
          if (idxOfChar (cs.drop 1) '[').isSome then none
          else if (idxOfChar (cs.drop (e + 1)) ']').isSome then none
          else some (String.mk ((cs.drop 1).take (e - 1)), String.mk (cs.drop (i + 1)))
        else none
    else
      let host := cs.take i
      if (idxOfChar host ':').isSome then none
      else if (idxOfChar cs '[').isSome then none
      else if (idxOfChar cs ']').isSome then none
      else some (String.mk host, String.mk (cs.drop (i + 1)))

/-- One decimal field of a dotted-quad IPv4 literal: 1-3 digits, value at most
255, no leading zero. -/
def parseV4Field (cs : List Char) : Option Nat :=
  if cs.isEmpty then none
  else if !cs.all (·.isDigit) then none
  else if decide (1 < cs.length) && cs.head? == some '0' then none
  else
    let n := cs.foldl (fun acc c => acc * 10 + (c.toNat - 48)) 0
    if n ≤ 255 then some n else none

/-- IPv4 dotted-quad parser (the `parseIPv4` step of `net.ParseIP`); returns
the four address bytes. -/
def parseIPv4 (s : String) : Option (List Nat) :=
  match (s.splitOn ".").map (fun f => parseV4Field f.toList) with
  | [some a, some b, some c, some d] => some [a, b, c, d]
  | _ => none

/-- Value of one hexadecimal digit. -/
def hexVal (c : Char) : Option Nat :=
  if '0' ≤ c ∧ c ≤ '9' then some (c.toNat - 48)
  else if 'a' ≤ c ∧ c ≤ 'f' then some (c.toNat - 87)
  else if 'A' ≤ c ∧ c ≤ 'F' then some (c.toNat - 55)
  else none

/-- One 16-bit group of an IPv6 literal: 1-4 hex digits. -/
def parseHexGroup (cs : List Char) : Option Nat :=
  if cs.isEmpty || decide (4 < cs.length) then none
  else cs.foldl (fun acc c =>
    match acc, hexVal c with
    | some a, some v => some (a * 16 + v)
    | _, _ => none) (some 0)

/-- Colon-separated fields of (one side of) an IPv6 literal, as address bytes;
the final field may be an embedded dotted-quad IPv4 address when `allowV4`. -/
def parseV6Fields (allowV4 : Bool) : List (List Char) → Option (List Nat)
  | [] => some []
  | [last] =>
    if allowV4 && last.contains '.' then parseIPv4 (String.mk last)
    else (parseHexGroup last).map (fun v => [v / 256, v % 256])
  | f :: rest =>
    match parseHexGroup f, parseV6Fields allowV4 rest with
    | some v, some bs => some ([v / 256, v % 256] ++ bs)
    | _, _ => none

/-- One side of an IPv6 literal split at `"::"`. -/
def parseV6Side (s : String) (allowV4 : Bool) : Option (List Nat) :=
  if s == "" then some []
  else parseV6Fields allowV4 ((s.splitOn ":").map String.toList)

/-- IPv6 literal parser (the `parseIPv6` step of `net.ParseIP`); returns the
sixteen address bytes.  At most one `"::"` ellipsis, which must stand for at
least one zero byte. -/
def parseIPv6 (s : String) : Option (List Nat) :=
  match s.splitOn "::" with
  | [whole] =>
    (parseV6Side whole true).bind (fun bs => if bs.length == 16 then some bs else none)
  | [l, r] =>
    match parseV6Side l false, parseV6Side r true with
    | some lb, some rb =>
      if lb.length + rb.length < 16
      then some (lb ++ List.replicate (16 - lb.length - rb.length) 0 ++ rb)
      else none
    | _, _ => none
  | _ => none

/-- Embeds `net.ParseIP`: dispatch on the first `'.'` or `':'`; `none` models a nil
result.  A successful parse yields the 4 or 16 address bytes. -/
def parseIP (s : String) : Option (List Nat) :=
  match s.toList.find? (fun c => c == '.' || c == ':') with
  | some '.' => parseIPv4 s
  | some _ => parseIPv6 s
  | none => none

/-- The IPv4-in-IPv6 prefix `::ffff:0:0/96` used by `IP.To4`. -/
def v4InV6Pre : List Nat := [0, 0, 0, 0, 0, 0, 0, 0, 0, 0, 255, 255]

/-- Embeds `ip.To4() != nil` on the bytes returned by `parseIP`. -/
def ipTo4NonNil (bytes : List Nat) : Bool :=
  bytes.length == 4 || (bytes.length == 16 && decide (bytes.take 12 = v4InV6Pre))

/-! ## Engine helper functions (`internal/reconcile/engine.go`) -/

/-- Embeds `belongsToZone`. -/
def belongsToZone (host zone : String) : Bool :=
  host == zone || strEndsWith host ("." ++ zone)

/-- Embeds `getRecordName`. -/
def getRecordName (host zone : String) : String :=
  let name := trimSuffixStr host ("." ++ zone)
  if host == zone then "@" else name

/-- The bracket-stripping preamble of `getRecordType` (lines 323-334), which
reassigns `host`. -/
def stripBrackets (host0 : String) : String :=
  if strStartsWith host0 "[" then
    if strContains host0 "]:" then
      match splitHostPort host0 with
      | some p => p.1
      | none => host0
    else dropBracketEnd (dropBracketStart host0)
  else host0

/-- The classification tail of `getRecordType` (lines 337-355): pure IP, then
host:port, then the CNAME fallback. -/
def classifyHost (host : String) : String :=
  match parseIP host with
  | some bytes => if ipTo4NonNil bytes then "A" else "AAAA"
  | none =>
    match splitHostPort host with
    | some p =>
      match parseIP p.1 with
      | some bytes => if ipTo4NonNil bytes then "A" else "AAAA"
      | none => "CNAME"
    | none => "CNAME"

/-- Embeds `getRecordType`. -/
def getRecordType (host0 : String) : String :=
  classifyHost (stripBrackets host0)

/-- Embeds `extractHostFromUpstream`. -/
def extractHostFromUpstream (upstream : String) : String :=
  if upstream == "" then ""
  else
    let viaSplit : Option String :=
      if strStartsWith upstream "[" && strContains upstream "]:" then
        (splitHostPort upstream).map (fun p => strTrim p.1 ['[', ']'])
      else none
    match viaSplit with
    | some h => h
    | none =>
      match cutAtChar ':' upstream.toList with
      | some p => String.mk p.1
      | none => upstream

/-- Embeds `txtIdentifier`. -/
def txtIdentifier (owner : String) : String :=
  "heritage=caddy-dns-sync,caddy-dns-sync/owner=" ++ owner

/-! ## Data model -/

/-- Embeds `provider.Record` (`internal/provider/provider.go`). -/
structure Record where
  name : String
  type : String
  data : String
  zone : String
  ttl : Nat
deriving DecidableEq, Repr

/-- Embeds `source.DomainConfig`: one desired host/upstream binding. -/
structure DomainConfig where
  host : String
  upstream : String
deriving DecidableEq, Repr

/-- Embeds `state.DomainState` (`internal/state/types.go`). -/
structure DomainState where
  serverName : String
  lastSeen : Int
deriving DecidableEq, Repr

/-- The `Domains` map of `state.State`, as an association list with Go-map
lookup/overwrite semantics. -/
def StateMap : Type := List (String × DomainState)

instance : DecidableEq StateMap := by unfold StateMap; infer_instance

instance : Repr StateMap := by unfold StateMap; infer_instance

/-- A record map (`recordMap` / `managedTXTRecords` in `generatePlan`). -/
def RecMap : Type := List (String × Record)

instance : DecidableEq RecMap := by unfold RecMap; infer_instance

instance : Repr RecMap := by unfold RecMap; infer_instance

/-- Go map lookup. -/
def alookup {α : Type} (m : List (String × α)) (k : String) : Option α :=
  match m with
  | [] => none
  | (k', v) :: rest => if k' = k then some v else alookup rest k

/-- Go map assignment `m[k] = v`: overwrite the binding when the key is
present, otherwise append it. -/
def mapInsert {α : Type} (m : List (String × α)) (k : String) (v : α) : List (String × α) :=
  match m with
  | [] => [(k, v)]
  | (k', v') :: rest => if k' = k then (k, v) :: rest else (k', v') :: mapInsert rest k v

/-- Embeds `state.StateChanges`. -/
structure StateChanges where
  added : List DomainConfig
  removed : List String
deriving DecidableEq, Repr

/-- Embeds `StateChanges.IsEmpty`. -/
def StateChanges.isEmpty (c : StateChanges) : Bool :=
  c.added.length == 0 && c.removed.length == 0

/-- Embeds `reconcile.Plan` (`internal/reconcile/types.go`); `update` is declared by
the source but never filled in. -/
structure Plan where
  create : List Record
  update : List Record
  delete : List Record
deriving DecidableEq, Repr

/-- Embeds `reconcile.OperationResult`. -/
structure OperationResult where
  record : Record
  op : String
  error : String
deriving DecidableEq, Repr

/-- Embeds `reconcile.Results`. -/
structure Results where
  created : List Record
  updated : List Record
  deleted : List Record
  failures : List OperationResult
deriving DecidableEq, Repr

/-- Engine configuration captured at construction (`NewEngine`). -/
structure EngineCfg where
  dryRun : Bool
  protectedRecords : List String
  owner : String
  zones : List String
deriving DecidableEq, Repr

/-- One collaborator call issued by the engine, for call traces. -/
inductive Call where
  | loadState
  | getRecords (zone : String)
  | createRecord (zone : String) (r : Record)
  | deleteRecord (zone : String) (r : Record)
  | saveState (s : StateMap)
deriving DecidableEq, Repr

/-- Model of the DNS provider collaborator: `getRecords` answers a record
listing or an error per zone; `createRecord`/`deleteRecord` answer `none` on
success and `some msg` for an error. -/
structure Provider where
  getRecords : String → Except String (List Record)
  createRecord : String → Record → Option String
  deleteRecord : String → Record → Option String

/-- Model of the state store collaborator: persisted content, plus the
outcomes of `LoadState` and `SaveState`. -/
structure Store where
  content : StateMap
  loadErr : Option String
  saveErr : Option String

/-- Outcome of `executePlan`: the results, the returned error, the trace of
provider/store calls issued, and the persisted content afterwards. -/
structure ExecOutcome where
  results : Results
  err : Option String
  calls : List Call
  stored : StateMap
deriving DecidableEq

/-- Outcome of a whole `Reconcile` run. -/
structure RunOutcome where
  results : Results
  err : Option String
  calls : List Call
  stored : StateMap
deriving DecidableEq

/-- Results zero value. -/
def emptyResults : Results := ⟨[], [], [], []⟩

/-! ## The reconciliation engine (`internal/reconcile/engine.go`) -/

/-- Embeds `isProtected` (`e.protected` is the set built from
`cfg.Reconcile.ProtectedRecords`). -/
def isProtected (cfg : EngineCfg) (name : String) : Bool :=
  cfg.protectedRecords.contains name

/-- The record-partitioning loop of `generatePlan` (lines 127-140): build
`recordMap` from `"A"`/`"CNAME"` records and `managedTXTRecords` from TXT
records carrying the heritage marker and the configured owner. -/
def buildRecordMapsAux (owner zone : String) :
    List Record → RecMap → RecMap → RecMap × RecMap
  | [], recordMap, managedTXT => (recordMap, managedTXT)
  | r :: rest, recordMap, managedTXT =>
    let recordName := getRecordName r.name zone
    match r.type with
    | "A" | "CNAME" =>
      buildRecordMapsAux owner zone rest (mapInsert recordMap recordName r) managedTXT
    | "TXT" =>
      if strContains r.data "heritage=caddy-dns-sync" &&
          strContains r.data ("caddy-dns-sync/owner=" ++ owner) then
        buildRecordMapsAux owner zone rest recordMap (mapInsert managedTXT recordName r)
      else
        buildRecordMapsAux owner zone rest recordMap managedTXT
    | _ => buildRecordMapsAux owner zone rest recordMap managedTXT

/-- Builds `recordMap` and `managedTXTRecords` for one zone's fetched records. -/
def buildRecordMaps (owner zone : String) (records : List Record) : RecMap × RecMap :=
  buildRecordMapsAux owner zone records [] []

/-- The already-converged test of the additions loop (lines 163-167). -/
def alreadyConverged (mainE txtE : Option Record) (desiredData txtData : String) : Bool :=
  match mainE, txtE with
  | some m, some t => m.data == desiredData && t.data == txtData
  | _, _ => false

/-- Turn a map hit into the records to delete (the `if mainExists` /
`if txtExists` appends). -/
def optToList : Option Record → List Record
  | some r => [r]
  | none => []

/-- Body of the additions loop of `generatePlan` (lines 143-199) for a single
added domain: the records appended to `plan.Create` and to `plan.Delete`. -/
def additionOps (cfg : EngineCfg) (zone : String) (recordMap managedTXT : RecMap)
    (domain : DomainConfig) : List Record × List Record :=
  if belongsToZone domain.host zone = false then ([], [])
  else if isProtected cfg domain.host then ([], [])
  else
    let recordName := getRecordName domain.host zone
    let host := extractHostFromUpstream domain.upstream
    let recordType := getRecordType host
    let desiredData := host
    let mainE := alookup recordMap recordName
    let txtE := alookup managedTXT recordName
    if alreadyConverged mainE txtE desiredData (txtIdentifier cfg.owner) then ([], [])
    else
      ([⟨recordName, recordType, desiredData, zone, 3600⟩,
        ⟨recordName, "TXT", txtIdentifier cfg.owner, zone, 3600⟩],
       optToList mainE ++ optToList txtE)

/-- Body of the removals loop of `generatePlan` (lines 202-234) for a single
removed hostname: the records appended to `plan.Delete`.  A `recordMap` hit
without a matching `managedTXTRecords` entry `continue`s, skipping the TXT
block as well. -/
def removalOps (cfg : EngineCfg) (zone : String) (recordMap managedTXT : RecMap)
    (host : String) : List Record :=
  if belongsToZone host zone = false then []
  else
    let recordName := getRecordName host zone
    if isProtected cfg recordName then []
    else
      match alookup recordMap recordName with
      | some record =>
        if (alookup managedTXT recordName).isSome = false then []
        else record :: optToList (alookup managedTXT recordName)
      | none => optToList (alookup managedTXT recordName)

/-- The additions loop over `changes.Added`, accumulating creates and
deletes in iteration order. -/
def additionsLoop (cfg : EngineCfg) (zone : String) (recordMap managedTXT : RecMap) :
    List DomainConfig → List Record × List Record
  | [] => ([], [])
  | d :: rest =>
    let ops := additionOps cfg zone recordMap managedTXT d
    let tail := additionsLoop cfg zone recordMap managedTXT rest
    (ops.1 ++ tail.1, ops.2 ++ tail.2)

/-- The removals loop over `changes.Removed`. -/
def removalsLoop (cfg : EngineCfg) (zone : String) (recordMap managedTXT : RecMap) :
    List String → List Record
  | [] => []
  | h :: rest =>
    removalOps cfg zone recordMap managedTXT h ++ removalsLoop cfg zone recordMap managedTXT rest

/-- One iteration of the per-zone loop of `generatePlan`: the creates and the
deletes contributed by `zone`, given the records fetched for it. -/
def planZone (cfg : EngineCfg) (zone : String) (records : List Record)
    (changes : StateChanges) : List Record × List Record :=
  let maps := buildRecordMaps cfg.owner zone records
  let adds := additionsLoop cfg zone maps.1 maps.2 changes.added
  let rems := removalsLoop cfg zone maps.1 maps.2 changes.removed
  (adds.1, adds.2 ++ rems)

/-- The zone loop of `generatePlan`: fetch each zone's records (tracing the
provider read) and accumulate the plan; a fetch failure aborts with the
wrapped error and the partial plan, as in the source. -/
def planZones (cfg : EngineCfg) (getRecords : String → Except String (List Record))
    (changes : StateChanges) :
    List String → Plan → List Call → Plan × Option String × List Call
  | [], plan, tr => (plan, none, tr)
  | zone :: rest, plan, tr =>
    match getRecords zone with
    | .error e =>
      (plan, some ("get records for zone " ++ zone ++ ": " ++ e), tr ++ [Call.getRecords zone])
    | .ok records =>
      let zoneOps := planZone cfg zone records changes
      planZones cfg getRecords changes rest
        ⟨plan.create ++ zoneOps.1, plan.update, plan.delete ++ zoneOps.2⟩
        (tr ++ [Call.getRecords zone])

/-- Embeds `generatePlan`. -/
def generatePlan (cfg : EngineCfg) (getRecords : String → Except String (List Record))
    (changes : StateChanges) : Plan × Option String × List Call :=
  planZones cfg getRecords changes cfg.zones ⟨[], [], []⟩ []

/-- The create-execution loop of `executePlan` (lines 261-273). -/
def execCreates (prov : Provider) : List Record → Results → List Call → Results × List Call
  | [], res, tr => (res, tr)
  | r :: rest, res, tr =>
    match prov.createRecord r.zone r with
    | some e =>
      execCreates prov rest
        { res with failures := res.failures ++ [⟨r, "create", e⟩] }
        (tr ++ [Call.createRecord r.zone r])
    | none =>
      execCreates prov rest
        { res with created := res.created ++ [r] }
        (tr ++ [Call.createRecord r.zone r])

/-- The delete-execution loop of `executePlan` (lines 276-288). -/
def execDeletes (prov : Provider) : List Record → Results → List Call → Results × List Call
  | [], res, tr => (res, tr)
  | r :: rest, res, tr =>
    match prov.deleteRecord r.zone r with
    | some e =>
      execDeletes prov rest
        { res with failures := res.failures ++ [⟨r, "delete", e⟩] }
        (tr ++ [Call.deleteRecord r.zone r])
    | none =>
      execDeletes prov rest
        { res with deleted := res.deleted ++ [r] }
        (tr ++ [Call.deleteRecord r.zone r])

/-- Embeds `executePlan`: dry-run short-circuit, the two execution loops, and the
persist-only-on-zero-failures decision (lines 239-300). -/
def executePlan (e : EngineCfg) (prov : Provider) (store : Store) (plan : Plan)
    (newState : StateMap) : ExecOutcome :=
  if e.dryRun then
    ⟨⟨plan.create, [], plan.delete, []⟩, none, [], store.content⟩
  else
    let afterCreates := execCreates prov plan.create emptyResults []
    let afterDeletes := execDeletes prov plan.delete afterCreates.1 afterCreates.2
    if afterDeletes.1.failures = [] then
      match store.saveErr with
      | some msg =>
        ⟨afterDeletes.1, some ("save state: " ++ msg),
          afterDeletes.2 ++ [Call.saveState newState], store.content⟩
      | none =>
        ⟨afterDeletes.1, none, afterDeletes.2 ++ [Call.saveState newState], newState⟩
    else
      ⟨afterDeletes.1, none, afterDeletes.2, store.content⟩

/-- The added-or-modified loop of `compareStates` (lines 95-102). -/
def addedLoop (previous : StateMap) : List (String × DomainState) → List DomainConfig
  | [] => []
  | (host, dcfg) :: rest =>
    match alookup previous host with
    | none => ⟨host, dcfg.serverName⟩ :: addedLoop previous rest
    | some prev =>
      if prev.serverName == dcfg.serverName then addedLoop previous rest
      else ⟨host, dcfg.serverName⟩ :: addedLoop previous rest

/-- The removed loop of `compareStates` (lines 105-109). -/
def removedLoop (current : StateMap) : List (String × DomainState) → List String
  | [] => []
  | (host, _) :: rest =>
    if (alookup current host).isSome then removedLoop current rest
    else host :: removedLoop current rest

/-- Embeds `compareStates`. -/
def compareStates (current previous : StateMap) : StateChanges :=
  ⟨addedLoop previous current, removedLoop current previous⟩

/-- The state-building loop of `Reconcile` (lines 60-65). -/
def buildStateLoop (now : Int) (m : StateMap) : List DomainConfig → StateMap
  | [] => m
  | d :: rest => buildStateLoop now (mapInsert m d.host ⟨d.upstream, now⟩) rest

/-- The `currentState` map built from the caller-supplied domains, each stamped with
the current Unix time. -/
def buildCurrentState (domains : List DomainConfig) (now : Int) : StateMap :=
  buildStateLoop now [] domains

/-- The body of `Reconcile` after a successful state load: diff the states,
short-circuit on an empty diff, otherwise generate and execute the plan,
wrapping the stage errors as the source does. -/
def reconcileAfterLoad (e : EngineCfg) (store : Store) (prov : Provider)
    (currentState : StateMap) : RunOutcome :=
  if (compareStates currentState store.content).isEmpty then
    ⟨emptyResults, none, [Call.loadState], store.content⟩
  else
    match generatePlan e prov.getRecords (compareStates currentState store.content) with
    | (_, some msg, tr) =>
      ⟨emptyResults, some ("generate plan: " ++ msg), Call.loadState :: tr, store.content⟩
    | (plan, none, tr) =>
      match executePlan e prov store plan currentState with
      | ⟨results, some msg, calls, stored⟩ =>
        ⟨results, some ("execute plan: " ++ msg), Call.loadState :: tr ++ calls, stored⟩
      | ⟨results, none, calls, stored⟩ =>
        ⟨results, none, Call.loadState :: tr ++ calls, stored⟩

/-- Embeds `Reconcile` (lines 48-86): load state, build and diff states,
short-circuit on an empty diff, then generate and execute the plan. -/
def Reconcile (e : EngineCfg) (store : Store) (prov : Provider)
    (domains : List DomainConfig) (now : Int) : RunOutcome :=
  match store.loadErr with
  | some msg => ⟨emptyResults, some ("load state: " ++ msg), [Call.loadState], store.content⟩
  | none => reconcileAfterLoad e store prov (buildCurrentState domains now)

/-! ## Map lemmas -/

theorem alookup_mapInsert {α : Type} (m : List (String × α)) (k : String) (v : α) (k' : String) :
    alookup (mapInsert m k v) k' = if k = k' then some v else alookup m k' := by
  induction m with
  | nil => simp [mapInsert, alookup]
  | cons hd tl ih =>
    obtain ⟨k0, v0⟩ := hd
    by_cases h : k0 = k
    · subst h
      simp only [mapInsert, if_pos rfl, alookup]
      by_cases h' : k0 = k' <;> simp [h']
    · simp only [mapInsert, if_neg h, alookup, ih]
      by_cases h' : k0 = k'
      · subst h'
        have hne : ¬(k = k0) := fun hh => h hh.symm
        simp [hne]
      · simp [h']

theorem alookup_isSome_of_mem {α : Type} {m : List (String × α)} {k : String} {v : α}
    (h : (k, v) ∈ m) : (alookup m k).isSome := by
  induction m with
  | nil => cases h
  | cons hd tl ih =>
    obtain ⟨k0, v0⟩ := hd
    rcases List.mem_cons.mp h with h1 | h1
    · cases h1
      simp [alookup]
    · simp only [alookup]
      by_cases hk : k0 = k
      · simp [hk]
      · simpa [hk] using ih h1

theorem mem_keys_mapInsert {α : Type} {m : List (String × α)} {k : String} {v : α} {a : String}
    (h : a ∈ (mapInsert m k v).map Prod.fst) : a = k ∨ a ∈ m.map Prod.fst := by
  induction m with
  | nil =>
    simp only [mapInsert, List.map_cons, List.map_nil, List.mem_singleton] at h
    exact Or.inl h
  | cons hd tl ih =>
    obtain ⟨k0, v0⟩ := hd
    simp only [mapInsert] at h
    split at h
    · simp only [List.map_cons, List.mem_cons] at h
      rcases h with h1 | h1
      · exact Or.inl h1
      · exact Or.inr (by simp only [List.map_cons, List.mem_cons]; exact Or.inr h1)
    · simp only [List.map_cons, List.mem_cons] at h
      rcases h with h1 | h1
      · exact Or.inr (by simp only [List.map_cons, List.mem_cons]; exact Or.inl h1)
      · rcases ih h1 with h2 | h2
        · exact Or.inl h2
        · exact Or.inr (by simp only [List.map_cons, List.mem_cons]; exact Or.inr h2)

theorem nodupKeys_mapInsert {α : Type} {m : List (String × α)} (k : String) (v : α)
    (h : (m.map Prod.fst).Nodup) : ((mapInsert m k v).map Prod.fst).Nodup := by
  induction m with
  | nil => simp [mapInsert]
  | cons hd tl ih =>
    obtain ⟨k0, v0⟩ := hd
    simp only [List.map_cons, List.nodup_cons] at h
    by_cases hk : k0 = k
    · subst hk
      simpa [mapInsert, List.nodup_cons] using h
    · have htl := ih h.2
      simp only [mapInsert, if_neg hk, List.map_cons, List.nodup_cons]
      refine ⟨fun hmem => ?_, htl⟩
      rcases mem_keys_mapInsert hmem with h1 | h1
      · exact hk h1
      · exact h.1 h1

theorem alookup_eq_of_mem_nodup {α : Type} {m : List (String × α)} {k : String} {v : α}
    (hnd : (m.map Prod.fst).Nodup) (h : (k, v) ∈ m) : alookup m k = some v := by
  induction m with
  | nil => cases h
  | cons hd tl ih =>
    obtain ⟨k0, v0⟩ := hd
    simp only [List.map_cons, List.nodup_cons] at hnd
    rcases List.mem_cons.mp h with h1 | h1
    · cases h1
      simp [alookup]
    · simp only [alookup]
      by_cases hk : k0 = k
      · subst hk
        exact absurd (List.mem_map.mpr ⟨(k0, v), h1, rfl⟩) hnd.1
      · simpa [hk] using ih hnd.2 h1

/-! ## Lemmas about the current-state building loop -/

theorem buildStateLoop_alookup (now : Int) (ds : List DomainConfig) (m : StateMap) (h : String) :
    alookup (buildStateLoop now m ds) h =
      match ds.reverse.find? (fun d => d.host == h) with
      | some d => some ⟨d.upstream, now⟩
      | none => alookup m h := by
  induction ds generalizing m with
  | nil => simp [buildStateLoop]
  | cons d rest ih =>
    simp only [buildStateLoop, List.reverse_cons]
    rw [ih]
    rw [List.find?_append]
    cases hr : rest.reverse.find? (fun d => d.host == h) with
    | some d' => simp
    | none =>
      simp only [Option.none_or]
      rw [alookup_mapInsert]
      simp only [List.find?]
      by_cases hd : d.host = h
      · have hb : (d.host == h) = true := beq_iff_eq.mpr hd
        rw [if_pos hd, hb]
      · have hb : (d.host == h) = false := beq_eq_false_iff_ne.mpr hd
        rw [if_neg hd, hb]

theorem nodupKeys_buildStateLoop (now : Int) (ds : List DomainConfig) (m : StateMap)
    (h : (m.map Prod.fst).Nodup) : ((buildStateLoop now m ds).map Prod.fst).Nodup := by
  induction ds generalizing m with
  | nil => exact h
  | cons d rest ih => exact ih _ (nodupKeys_mapInsert _ _ h)

theorem nodupKeys_buildCurrentState (domains : List DomainConfig) (now : Int) :
    ((buildCurrentState domains now).map Prod.fst).Nodup :=
  nodupKeys_buildStateLoop now domains [] List.Pairwise.nil

/-! ## Lemmas about the diff loops -/

theorem addedLoop_eq_nil {previous : StateMap} {entries : List (String × DomainState)}
    (H : ∀ e ∈ entries, ∃ p, alookup previous e.1 = some p ∧ p.serverName = e.2.serverName) :
    addedLoop previous entries = [] := by
  induction entries with
  | nil => rfl
  | cons e rest ih =>
    obtain ⟨host, dcfg⟩ := e
    obtain ⟨p, hp, hsn⟩ := H (host, dcfg) (List.mem_cons.mpr (Or.inl rfl))
    simp only [addedLoop, hp]
    rw [if_pos (beq_iff_eq.mpr hsn)]
    exact ih fun e he => H e (List.mem_cons.mpr (Or.inr he))

theorem removedLoop_eq_nil {current : StateMap} {entries : List (String × DomainState)}
    (H : ∀ e ∈ entries, (alookup current e.1).isSome = true) :
    removedLoop current entries = [] := by
  induction entries with
  | nil => rfl
  | cons e rest ih =>
    obtain ⟨host, dcfg⟩ := e
    simp only [removedLoop, H (host, dcfg) (List.mem_cons.mpr (Or.inl rfl))]
    exact ih fun e he => H e (List.mem_cons.mpr (Or.inr he))

/-! ## Lemmas about the execution loops -/

/-- The per-record create failures the loop accumulates, in plan order. -/
def createFailures (prov : Provider) (rs : List Record) : List OperationResult :=
  rs.filterMap (fun r => (prov.createRecord r.zone r).map (fun msg => ⟨r, "create", msg⟩))

/-- The creates that succeed, in plan order. -/
def createSuccesses (prov : Provider) (rs : List Record) : List Record :=
  rs.filterMap (fun r =>
    match prov.createRecord r.zone r with
    | none => some r
    | some _ => none)

/-- The per-record delete failures the loop accumulates, in plan order. -/
def deleteFailures (prov : Provider) (rs : List Record) : List OperationResult :=
  rs.filterMap (fun r => (prov.deleteRecord r.zone r).map (fun msg => ⟨r, "delete", msg⟩))

/-- The deletes that succeed, in plan order. -/
def deleteSuccesses (prov : Provider) (rs : List Record) : List Record :=
  rs.filterMap (fun r =>
    match prov.deleteRecord r.zone r with
    | none => some r
    | some _ => none)

theorem execCreates_eq (prov : Provider) (rs : List Record) :
    ∀ (res : Results) (tr : List Call),
      execCreates prov rs res tr =
        (⟨res.created ++ createSuccesses prov rs, res.updated, res.deleted,
          res.failures ++ createFailures prov rs⟩,
         tr ++ rs.map (fun r => Call.createRecord r.zone r)) := by
  induction rs with
  | nil => intro res tr; simp [execCreates, createSuccesses, createFailures]
  | cons r rest ih =>
    intro res tr
    cases hc : prov.createRecord r.zone r with
    | some e =>
      simp [execCreates, hc, ih, createSuccesses, createFailures, List.filterMap_cons]
    | none =>
      simp [execCreates, hc, ih, createSuccesses, createFailures, List.filterMap_cons]

theorem execDeletes_eq (prov : Provider) (rs : List Record) :
    ∀ (res : Results) (tr : List Call),
      execDeletes prov rs res tr =
        (⟨res.created, res.updated, res.deleted ++ deleteSuccesses prov rs,
          res.failures ++ deleteFailures prov rs⟩,
         tr ++ rs.map (fun r => Call.deleteRecord r.zone r)) := by
  induction rs with
  | nil => intro res tr; simp [execDeletes, deleteSuccesses, deleteFailures]
  | cons r rest ih =>
    intro res tr
    cases hc : prov.deleteRecord r.zone r with
    | some e =>
      simp [execDeletes, hc, ih, deleteSuccesses, deleteFailures, List.filterMap_cons]
    | none =>
      simp [execDeletes, hc, ih, deleteSuccesses, deleteFailures, List.filterMap_cons]

theorem saveState_not_mem_createCalls (s : StateMap) (rs : List Record) :
    Call.saveState s ∉ rs.map (fun r => Call.createRecord r.zone r) := by
  intro h
  rcases List.mem_map.mp h with ⟨r, hr, heq⟩
  cases heq

theorem saveState_not_mem_deleteCalls (s : StateMap) (rs : List Record) :
    Call.saveState s ∉ rs.map (fun r => Call.deleteRecord r.zone r) := by
  intro h
  rcases List.mem_map.mp h with ⟨r, hr, heq⟩
  cases heq

/-- The only errors `planZones` can produce come from a zone's record
listing. -/
theorem planZones_err (cfg : EngineCfg) (getRecords : String → Except String (List Record))
    (changes : StateChanges) (zones : List String) :
    ∀ (plan : Plan) (tr : List Call),
      (planZones cfg getRecords changes zones plan tr).2.1 ≠ none →
      ∃ z ∈ zones, ∃ msg, getRecords z = Except.error msg := by
  induction zones with
  | nil => intro plan tr h; exact absurd rfl h
  | cons zone rest ih =>
    intro plan tr h
    cases hz : getRecords zone with
    | error e => exact ⟨zone, List.mem_cons.mpr (Or.inl rfl), e, hz⟩
    | ok records =>
      simp only [planZones, hz] at h
      rcases ih _ _ h with ⟨z, hzm, msg, hmsg⟩
      exact ⟨z, List.mem_cons.mpr (Or.inr hzm), msg, hmsg⟩

/-- The classification helper only produces address/alias types. -/
theorem classifyHost_ne_TXT (host : String) : classifyHost host ≠ "TXT" := by
  unfold classifyHost
  split
  · split <;> decide
  · split
    · split
      · split <;> decide
      · decide
    · decide

theorem getRecordType_ne_TXT (s : String) : getRecordType s ≠ "TXT" :=
  classifyHost_ne_TXT (stripBrackets s)

/-! ## Lemmas about the record partitioning -/

/-- Does the fetched record set contain a managed TXT record (heritage marker
plus configured owner) whose zone-relative name is `name`?  This is the
spec-side formulation of "a matching owned TXT record is present". -/
def isManagedTXTFor (owner zone name : String) (recs : List Record) : Bool :=
  recs.any (fun t => t.type == "TXT" && getRecordName t.name zone == name &&
    strContains t.data "heritage=caddy-dns-sync" &&
    strContains t.data ("caddy-dns-sync/owner=" ++ owner))

theorem buildRecordMapsAux_managedTXT_spec (owner zone : String) (records : List Record) :
    ∀ (rm mt : RecMap) (k : String) (t : Record),
      alookup (buildRecordMapsAux owner zone records rm mt).2 k = some t →
      alookup mt k = some t ∨
        (t ∈ records ∧ t.type = "TXT" ∧
          strContains t.data "heritage=caddy-dns-sync" = true ∧
          strContains t.data ("caddy-dns-sync/owner=" ++ owner) = true ∧
          getRecordName t.name zone = k) := by
  induction records with
  | nil => intro rm mt k t h; exact Or.inl h
  | cons r rest ih =>
    intro rm mt k t h
    simp only [buildRecordMapsAux] at h
    split at h
    · rcases ih _ _ _ _ h with h1 | h1
      · exact Or.inl h1
      · exact Or.inr ⟨List.mem_cons.mpr (Or.inr h1.1), h1.2⟩
    · rcases ih _ _ _ _ h with h1 | h1
      · exact Or.inl h1
      · exact Or.inr ⟨List.mem_cons.mpr (Or.inr h1.1), h1.2⟩
    · rename_i hty
      split at h
      · rename_i hcond
        rcases ih _ _ _ _ h with h1 | h1
        · rw [alookup_mapInsert] at h1
          by_cases hk : getRecordName r.name zone = k
          · rw [if_pos hk] at h1
            injection h1 with h1
            subst h1
            rw [Bool.and_eq_true] at hcond
            exact Or.inr ⟨List.mem_cons.mpr (Or.inl rfl), hty, hcond.1, hcond.2, hk⟩
          · rw [if_neg hk] at h1
            exact Or.inl h1
        · exact Or.inr ⟨List.mem_cons.mpr (Or.inr h1.1), h1.2⟩
      · rcases ih _ _ _ _ h with h1 | h1
        · exact Or.inl h1
        · exact Or.inr ⟨List.mem_cons.mpr (Or.inr h1.1), h1.2⟩
    · rcases ih _ _ _ _ h with h1 | h1
      · exact Or.inl h1
      · exact Or.inr ⟨List.mem_cons.mpr (Or.inr h1.1), h1.2⟩

/-- A hit in `managedTXTRecords` certifies a managed TXT record among the
fetched records with the matching zone-relative name. -/
theorem managedTXT_lookup_spec {owner zone : String} {records : List Record} {k : String}
    {t : Record} (h : alookup (buildRecordMaps owner zone records).2 k = some t) :
    t ∈ records ∧ t.type = "TXT" ∧
      strContains t.data "heritage=caddy-dns-sync" = true ∧
      strContains t.data ("caddy-dns-sync/owner=" ++ owner) = true ∧
      getRecordName t.name zone = k := by
  rcases buildRecordMapsAux_managedTXT_spec owner zone records [] [] k t h with h1 | h1
  · cases h1
  · exact h1

/-- An `isSome` hit in `managedTXTRecords` yields the spec-side managed-TXT
predicate on the fetched records. -/
theorem isManagedTXTFor_of_lookup {owner zone : String} {records : List Record} {k : String}
    (h : (alookup (buildRecordMaps owner zone records).2 k).isSome = true) :
    isManagedTXTFor owner zone k records = true := by
  cases ht : alookup (buildRecordMaps owner zone records).2 k with
  | none => rw [ht] at h; cases h
  | some t =>
    obtain ⟨hmem, hty, hh, ho, hk⟩ := managedTXT_lookup_spec ht
    unfold isManagedTXTFor
    rw [List.any_eq_true]
    refine ⟨t, hmem, ?_⟩
    rw [Bool.and_eq_true, Bool.and_eq_true, Bool.and_eq_true]
    exact ⟨⟨⟨beq_iff_eq.mpr hty, beq_iff_eq.mpr hk⟩, hh⟩, ho⟩

/-! ## Concrete fixtures used by the claim analyses -/

/-- Engine configuration with owner `"o"`, no protected names, one zone. -/
def cfgC1 : EngineCfg := ⟨false, [], "o", ["example.com"]⟩

/-- One fetched A record named `a` with no accompanying TXT record. -/
def recsC1 : List Record := [⟨"a", "A", "9.9.9.9", "example.com", 3600⟩]

/-- Provider read returning `recsC1` for every zone. -/
def getRecsC1 : String → Except String (List Record) := fun _ => Except.ok recsC1

/-- Diff adding `a.example.com` (upstream differs from the existing record). -/
def changesC1 : StateChanges := ⟨[⟨"a.example.com", "upstream.host"⟩], []⟩

/-- Configuration for the C1 witness: removal of an owned record pair. -/
def cfgC1w : EngineCfg := ⟨false, [], "o", ["example.com"]⟩

/-- An owned A/TXT record pair named `old`. -/
def recsC1w : List Record :=
  [⟨"old", "A", "10.0.0.1", "example.com", 3600⟩,
   ⟨"old", "TXT", "heritage=caddy-dns-sync,caddy-dns-sync/owner=o", "example.com", 3600⟩]

/-- The A record of the `recsC1w` pair. -/
def recAC1w : Record := ⟨"old", "A", "10.0.0.1", "example.com", 3600⟩

/-- Configuration protecting the full hostname `p.example.com`. -/
def cfgC3 : EngineCfg := ⟨false, ["p.example.com"], "o", ["example.com"]⟩

/-- An owned record pair named `p`, whose full hostname is protected. -/
def recsC3 : List Record :=
  [⟨"p", "A", "1.2.3.4", "example.com", 3600⟩,
   ⟨"p", "TXT", "heritage=caddy-dns-sync,caddy-dns-sync/owner=o", "example.com", 3600⟩]

/-- Provider read returning `recsC3` for every zone. -/
def getRecsC3 : String → Except String (List Record) := fun _ => Except.ok recsC3

/-- Configuration for the C3 witness, protecting both a full hostname and a
zone-relative name. -/
def cfgC3w : EngineCfg := ⟨false, ["prot.example.com", "prot"], "o", ["example.com"]⟩

/-- A fetched AAAA record, zone-relative name `ipv6`. -/
def aaaaFetched : Record := ⟨"ipv6", "AAAA", "2001:db8::1", "example.com", 3600⟩

/-- The same record with type A. -/
def aFetched : Record := ⟨"ipv6", "A", "2001:db8::1", "example.com", 3600⟩

/-- Records planned for creation/deletion in the cancellation scenario. -/
def recC6a : Record := ⟨"a", "A", "1.2.3.4", "example.com", 3600⟩

/-- Second planned create of the cancellation scenario. -/
def recC6b : Record := ⟨"b", "A", "1.2.3.5", "example.com", 3600⟩

/-- Planned delete of the cancellation scenario. -/
def recC6c : Record := ⟨"c", "A", "1.2.3.6", "example.com", 3600⟩

/-- Provider under a cancellation that fires after the first create: the
first create succeeds, and every later call fails with the context
cancellation error (as calls through a cancelled context do). -/
def cancelledProvider : Provider :=
  ⟨fun _ => Except.ok [],
   fun _ r => if r = recC6a then none else some "context canceled",
   fun _ _ => some "context canceled"⟩

/-- Engine configuration of the cancellation scenario. -/
def engC6 : EngineCfg := ⟨false, [], "o", ["example.com"]⟩

/-- Healthy state store of the cancellation scenario. -/
def storeC6 : Store := ⟨[], none, none⟩

/-- Plan with two creates and one delete for the cancellation scenario. -/
def planC6 : Plan := ⟨[recC6a, recC6b], [], [recC6c]⟩

/-! ## Claim C5 -/

/-- C5: the claim states that every fetched A, AAAA or CNAME record is placed
into `recordMap` under its zone-relative name.  The code's switch handles only
`"A"` and `"CNAME"`: a fetched AAAA record is dropped (lookup `none`), while
the identical record with type A is kept.  This falsifies the claim at the
concrete fetched record `⟨"ipv6", "AAAA", "2001:db8::1", "example.com", 3600⟩`. -/
theorem C5_aaaa_missing_from_recordMap :
    alookup (buildRecordMaps "test-owner" "example.com" [aaaaFetched]).1 "ipv6" = none ∧
    alookup (buildRecordMaps "test-owner" "example.com" [aFetched]).1 "ipv6" = some aFetched :=
  ⟨rfl, rfl⟩

/-! ## Claim C7 -/

/-- C7: the claim states that `extractHostFromUpstream` strips the port and
brackets from bare hosts, host:port pairs, and bracketed IPv6 literals with or
without a port.  The first three conjuncts confirm the claim's examples; the
final conjunct shows the claim false for a bracketed IPv6 literal without a
port: the code returns `"[2001"` (the text before the first colon), not
`"2001:db8::1"`. -/
theorem C7_extractHost_bracketed_ipv6 :
    extractHostFromUpstream "[2001:db8::1]:8080" = "2001:db8::1" ∧
    extractHostFromUpstream "192.168.1.1:8080" = "192.168.1.1" ∧
    extractHostFromUpstream "reroute.com" = "reroute.com" ∧
    extractHostFromUpstream "[2001:db8::1]" = "[2001" :=
  ⟨rfl, rfl, rfl, rfl⟩

/-! ## Claim C6 -/

/-- C6: the claim states that a cancellation during the create/delete loops
stops further provider calls and is returned as the run's non-nil error.  In
the code the loops never consult the cancellation signal: with a provider
whose calls fail with `"context canceled"` from the second operation on, the
engine still issues all three planned calls, returns a `none` error with the
cancellations recorded as ordinary failures, and leaves state unpersisted. -/
theorem C6_cancellation_not_short_circuited :
    (executePlan engC6 cancelledProvider storeC6 planC6 []).calls =
      [Call.createRecord "example.com" recC6a, Call.createRecord "example.com" recC6b,
       Call.deleteRecord "example.com" recC6c] ∧
    (executePlan engC6 cancelledProvider storeC6 planC6 []).err = none ∧
    (executePlan engC6 cancelledProvider storeC6 planC6 []).results.failures =
      [⟨recC6b, "create", "context canceled"⟩, ⟨recC6c, "delete", "context canceled"⟩] ∧
    (executePlan engC6 cancelledProvider storeC6 planC6 []).results.created = [recC6a] ∧
    (executePlan engC6 cancelledProvider storeC6 planC6 []).stored = storeC6.content :=
  ⟨rfl, rfl, rfl, rfl, rfl⟩

/-! ## Claim C1 -/

/-- C1 counterexample: the claim states that a non-TXT record enters the
plan's delete list only if a managed TXT record with the same zone-relative
name is among the fetched records — in the removal path and in the addition
path alike.  At this input the added host `a.example.com` has an existing
mismatched A record named `a` and no TXT record at all, yet the addition path
schedules that A record for deletion: the delete list is exactly the A record
and the ownership condition fails on it. -/
theorem C1_counterexample :
    ((generatePlan cfgC1 getRecsC1 changesC1).1.delete.all
      (fun r => r.type == "TXT" ||
        isManagedTXTFor cfgC1.owner "example.com" (getRecordName r.name "example.com") recsC1))
      = false ∧
    (generatePlan cfgC1 getRecsC1 changesC1).1.delete =
      [⟨"a", "A", "9.9.9.9", "example.com", 3600⟩] :=
  ⟨rfl, rfl⟩

/-! ## Claim C3 -/

/-- C3 counterexample: the claim states that a hostname in the protected set
never has a create or a delete emitted for it, in either diff direction.  Here
`p.example.com` is protected, yet its removal emits deletes for its A and TXT
records, because the removal path checks protection of the zone-relative name
`p`, not of the full hostname. -/
theorem C3_counterexample :
    isProtected cfgC3 "p.example.com" = true ∧
    (generatePlan cfgC3 getRecsC3 ⟨[], ["p.example.com"]⟩).1.delete =
      [⟨"p", "A", "1.2.3.4", "example.com", 3600⟩,
       ⟨"p", "TXT", "heritage=caddy-dns-sync,caddy-dns-sync/owner=o", "example.com", 3600⟩] :=
  ⟨rfl, rfl⟩

/-- C3 amended: protection is checked against the full hostname in the
addition path and against the zone-relative record name in the removal path:
a domain whose full hostname is protected contributes no plan entries as an
added host, and a hostname whose zone-relative name is protected contributes
no deletes as a removed host. -/
theorem C3_protection_checks (cfg : EngineCfg) (zone : String)
    (recordMap managedTXT : RecMap) (d : DomainConfig) (h : String) :
    (isProtected cfg d.host = true →
      additionOps cfg zone recordMap managedTXT d = ([], [])) ∧
    (isProtected cfg (getRecordName h zone) = true →
      removalOps cfg zone recordMap managedTXT h = []) := by
  constructor
  · intro hp
    unfold additionOps
    by_cases hb : belongsToZone d.host zone = false
    · rw [if_pos hb]
    · rw [if_neg hb, if_pos hp]
  · intro hp
    unfold removalOps
    by_cases hb : belongsToZone h zone = false
    · rw [if_pos hb]
    · rw [if_neg hb]
      simp only [hp, if_pos]

/-- C3 witness: with both `prot.example.com` and the zone-relative name
`prot` protected, the protected added domain and the protected removed
hostname produce no plan entries. -/
theorem C3_protection_checks_witness :
    additionOps cfgC3w "example.com" [] [] ⟨"prot.example.com", "1.2.3.4"⟩ = ([], []) ∧
    removalOps cfgC3w "example.com" [] [] "prot.example.com" = [] :=
  ⟨(C3_protection_checks cfgC3w "example.com" [] [] ⟨"prot.example.com", "1.2.3.4"⟩
      "prot.example.com").1 (by decide),
   (C3_protection_checks cfgC3w "example.com" [] [] ⟨"prot.example.com", "1.2.3.4"⟩
      "prot.example.com").2 (by decide)⟩

/-- C1 amended: in the removal path the ownership invariant does hold — any
record the removal loop schedules for deletion (in particular any non-TXT
address/alias record) has a managed TXT record with the same zone-relative
name among the fetched records of that zone. -/
theorem C1_removal_ownership (cfg : EngineCfg) (zone : String) (records : List Record)
    (h : String) (r : Record)
    (hmem : r ∈ removalOps cfg zone (buildRecordMaps cfg.owner zone records).1
        (buildRecordMaps cfg.owner zone records).2 h)
    (_hty : r.type ≠ "TXT") :
    isManagedTXTFor cfg.owner zone (getRecordName h zone) records = true := by
  unfold removalOps at hmem
  by_cases hb : belongsToZone h zone = false
  · rw [if_pos hb] at hmem
    cases hmem
  · rw [if_neg hb] at hmem
    by_cases hp : isProtected cfg (getRecordName h zone) = true
    · simp only [hp, if_pos] at hmem
      cases hmem
    · rw [if_neg hp] at hmem
      split at hmem
      · split at hmem
        · cases hmem
        · rename_i hs
          have hsome : (alookup (buildRecordMaps cfg.owner zone records).2
              (getRecordName h zone)).isSome = true := by
            revert hs
            cases (alookup (buildRecordMaps cfg.owner zone records).2
              (getRecordName h zone)).isSome <;> simp
          exact isManagedTXTFor_of_lookup hsome
      · cases htxt : alookup (buildRecordMaps cfg.owner zone records).2 (getRecordName h zone) with
        | some t =>
          exact isManagedTXTFor_of_lookup (by rw [htxt]; rfl)
        | none =>
          simp only [htxt, optToList] at hmem
          cases hmem

/-- C1 witness: deleting the removed host `old.example.com`, whose A record is
accompanied by an owned TXT record, satisfies the removal-path ownership
invariant. -/
theorem C1_removal_ownership_witness :
    recAC1w ∈ removalOps cfgC1w "example.com"
        (buildRecordMaps cfgC1w.owner "example.com" recsC1w).1
        (buildRecordMaps cfgC1w.owner "example.com" recsC1w).2 "old.example.com" ∧
    recAC1w.type ≠ "TXT" ∧
    isManagedTXTFor cfgC1w.owner "example.com"
      (getRecordName "old.example.com" "example.com") recsC1w = true :=
  ⟨by decide, by decide,
   C1_removal_ownership cfgC1w "example.com" recsC1w "old.example.com" recAC1w
     (by decide) (by decide)⟩

/-! ## Claim C9 -/

/-- C9: every added host the addition loop does not skip contributes exactly
one address/alias record and one TXT record, appended together, sharing the
zone-relative name; the TXT record's data is exactly the heritage marker
formatted with the configured owner. -/
theorem C9_create_pairs (cfg : EngineCfg) (zone : String) (recordMap managedTXT : RecMap)
    (d : DomainConfig) :
    (additionOps cfg zone recordMap managedTXT d).1 = [] ∨
    ∃ mainRec : Record,
      (additionOps cfg zone recordMap managedTXT d).1 =
        [mainRec, ⟨getRecordName d.host zone, "TXT", txtIdentifier cfg.owner, zone, 3600⟩] ∧
      mainRec.name = getRecordName d.host zone ∧
      mainRec.type = getRecordType (extractHostFromUpstream d.upstream) ∧
      mainRec.type ≠ "TXT" ∧
      mainRec.data = extractHostFromUpstream d.upstream ∧
      mainRec.zone = zone := by
  unfold additionOps
  by_cases hb : belongsToZone d.host zone = false
  · rw [if_pos hb]
    exact Or.inl rfl
  · rw [if_neg hb]
    by_cases hp : isProtected cfg d.host = true
    · rw [if_pos hp]
      exact Or.inl rfl
    · rw [if_neg hp]
      by_cases hc : alreadyConverged
          (alookup recordMap (getRecordName d.host zone))
          (alookup managedTXT (getRecordName d.host zone))
          (extractHostFromUpstream d.upstream) (txtIdentifier cfg.owner) = true
      · rw [if_pos hc]
        exact Or.inl rfl
      · rw [if_neg hc]
        exact Or.inr ⟨⟨getRecordName d.host zone,
          getRecordType (extractHostFromUpstream d.upstream),
          extractHostFromUpstream d.upstream, zone, 3600⟩,
          rfl, rfl, rfl, getRecordType_ne_TXT _, rfl, rfl⟩

/-! ## Execution characterization -/

/-- Closed form of a non-dry-run `executePlan`: every planned create and then
every planned delete is attempted in order, successes and failures are
partitioned by the provider's answers, and the save happens exactly when no
failure was recorded. -/
theorem executePlan_eq (e : EngineCfg) (prov : Provider) (store : Store) (plan : Plan)
    (newState : StateMap) (hdry : e.dryRun = false) :
    executePlan e prov store plan newState =
      if createFailures prov plan.create ++ deleteFailures prov plan.delete = [] then
        match store.saveErr with
        | some msg =>
          ⟨⟨createSuccesses prov plan.create, [], deleteSuccesses prov plan.delete,
              createFailures prov plan.create ++ deleteFailures prov plan.delete⟩,
            some ("save state: " ++ msg),
            plan.create.map (fun r => Call.createRecord r.zone r) ++
              plan.delete.map (fun r => Call.deleteRecord r.zone r) ++
              [Call.saveState newState],
            store.content⟩
        | none =>
          ⟨⟨createSuccesses prov plan.create, [], deleteSuccesses prov plan.delete,
              createFailures prov plan.create ++ deleteFailures prov plan.delete⟩,
            none,
            plan.create.map (fun r => Call.createRecord r.zone r) ++
              plan.delete.map (fun r => Call.deleteRecord r.zone r) ++
              [Call.saveState newState],
            newState⟩
      else
        ⟨⟨createSuccesses prov plan.create, [], deleteSuccesses prov plan.delete,
            createFailures prov plan.create ++ deleteFailures prov plan.delete⟩,
          none,
          plan.create.map (fun r => Call.createRecord r.zone r) ++
            plan.delete.map (fun r => Call.deleteRecord r.zone r),
          store.content⟩ := by
  unfold executePlan
  rw [hdry]
  simp only [Bool.false_eq_true, if_false]
  rw [execCreates_eq, execDeletes_eq]
  simp [emptyResults, List.append_assoc]

/-! ## Claim C2 -/

/-- C2: in every non-dry-run execution, the state store's save is invoked if
and only if the failures list is empty after all planned operations were
attempted; when failures are present no save occurs and the persisted content
after the run equals the content before it. -/
theorem C2_save_iff_no_failures (e : EngineCfg) (prov : Provider) (store : Store)
    (plan : Plan) (newState : StateMap) (hdry : e.dryRun = false) :
    ((Call.saveState newState ∈ (executePlan e prov store plan newState).calls) ↔
      (executePlan e prov store plan newState).results.failures = []) ∧
    ((executePlan e prov store plan newState).results.failures ≠ [] →
      (executePlan e prov store plan newState).stored = store.content) := by
  rw [executePlan_eq e prov store plan newState hdry]
  by_cases hf : createFailures prov plan.create ++ deleteFailures prov plan.delete = []
  · rw [if_pos hf]
    cases store.saveErr with
    | some msg =>
      refine ⟨iff_of_true ?_ hf, fun hne => absurd hf hne⟩
      exact List.mem_append_right _ (List.mem_singleton.mpr rfl)
    | none =>
      refine ⟨iff_of_true ?_ hf, fun hne => absurd hf hne⟩
      exact List.mem_append_right _ (List.mem_singleton.mpr rfl)
  · rw [if_neg hf]
    refine ⟨iff_of_false ?_ hf, fun _ => rfl⟩
    intro hmem
    rcases List.mem_append.mp hmem with hmem1 | hmem1
    · exact saveState_not_mem_createCalls _ _ hmem1
    · exact saveState_not_mem_deleteCalls _ _ hmem1

/-- C2 witness fixtures: a failing create veto-ing the save. -/
def engC2 : EngineCfg := ⟨false, [], "o", ["example.com"]⟩

/-- Store for the C2 witness. -/
def storeC2 : Store := ⟨[("x.example.com", ⟨"1.2.3.4:80", 1⟩)], none, none⟩

/-- Provider for the C2 witness whose create calls fail. -/
def provC2 : Provider :=
  ⟨fun _ => Except.ok [], fun _ _ => some "boom", fun _ _ => none⟩

/-- Plan for the C2 witness. -/
def planC2 : Plan := ⟨[recC6a], [], []⟩

/-- C2 witness: at the concrete failing-create input, the save call is absent
exactly because the failures list is non-empty, and the stored content is
unchanged. -/
theorem C2_save_iff_no_failures_witness :
    engC2.dryRun = false ∧
    (((Call.saveState [] ∈ (executePlan engC2 provC2 storeC2 planC2 []).calls) ↔
      (executePlan engC2 provC2 storeC2 planC2 []).results.failures = []) ∧
    ((executePlan engC2 provC2 storeC2 planC2 []).results.failures ≠ [] →
      (executePlan engC2 provC2 storeC2 planC2 []).stored = storeC2.content)) :=
  ⟨rfl, C2_save_iff_no_failures engC2 provC2 storeC2 planC2 [] rfl⟩

/-! ## Claim C8 -/

/-- A non-nil `executePlan` error can only come from a failing save. -/
theorem executePlan_err_saveErr (e : EngineCfg) (prov : Provider) (store : Store) (plan : Plan)
    (newState : StateMap)
    (h : (executePlan e prov store plan newState).err ≠ none) : store.saveErr ≠ none := by
  cases hd : e.dryRun with
  | true =>
    unfold executePlan at h
    rw [hd] at h
    simp at h
  | false =>
    rw [executePlan_eq e prov store plan newState hd] at h
    by_cases hf : createFailures prov plan.create ++ deleteFailures prov plan.delete = []
    · rw [if_pos hf] at h
      split at h
      · rename_i msg hs
        rw [hs]
        simp
      · simp at h
    · rw [if_neg hf] at h
      simp at h

/-- A non-nil run error comes only from a failed state load, a failed zone
record listing, or a failed state save. -/
theorem reconcile_err_taxonomy (e : EngineCfg) (store : Store) (prov : Provider)
    (domains : List DomainConfig) (now : Int)
    (h : (Reconcile e store prov domains now).err ≠ none) :
    store.loadErr ≠ none ∨ (∃ z ∈ e.zones, ∃ msg, prov.getRecords z = Except.error msg) ∨
      store.saveErr ≠ none := by
  unfold Reconcile at h
  split at h
  · rename_i msg hload
    rw [hload]
    exact Or.inl (by simp)
  · rename_i hload
    unfold reconcileAfterLoad at h
    split at h
    · simp at h
    · split at h
      · rename_i plan msg tr hgen
        refine Or.inr (Or.inl ?_)
        apply planZones_err e prov.getRecords _ e.zones ⟨[], [], []⟩ []
        unfold generatePlan at hgen
        rw [hgen]
        simp
      · rename_i plan tr hgen
        split at h
        · rename_i results msg calls stored hexec
          refine Or.inr (Or.inr ?_)
          apply executePlan_err_saveErr e prov store plan (buildCurrentState domains now)
          rw [hexec]
          simp
        · simp at h

/-- The C8 conclusion about one execution: the exact call trace (every
planned operation attempted in order, a save only after a clean run), the
exact failures list (record, operation name and error message for each
failing provider call), and a nil error whenever failures are present. -/
def executionFaultModel (e : EngineCfg) (prov : Provider) (store : Store) (plan : Plan)
    (newState : StateMap) : Prop :=
  (executePlan e prov store plan newState).calls =
      plan.create.map (fun r => Call.createRecord r.zone r) ++
      plan.delete.map (fun r => Call.deleteRecord r.zone r) ++
      (if (executePlan e prov store plan newState).results.failures = []
       then [Call.saveState newState] else []) ∧
  (executePlan e prov store plan newState).results.failures =
      createFailures prov plan.create ++ deleteFailures prov plan.delete ∧
  ((executePlan e prov store plan newState).results.failures ≠ [] →
      (executePlan e prov store plan newState).err = none)

/-- The C8 conclusion about whole runs: a non-nil error implies one of the
fatal-to-run conditions (state load failure, a zone's record listing failure,
or state save failure). -/
def fatalErrorTaxonomy (e : EngineCfg) (store : Store) (prov : Provider) : Prop :=
  ∀ (domains : List DomainConfig) (now : Int),
    (Reconcile e store prov domains now).err ≠ none →
    store.loadErr ≠ none ∨ (∃ z ∈ e.zones, ∃ msg, prov.getRecords z = Except.error msg) ∨
      store.saveErr ≠ none

/-- C8: per-operation create/delete failures are recorded (record, operation,
message) without stopping the remaining operations, the run's error stays nil
in their presence, and a whole run returns a non-nil error only for
fatal-to-run conditions. -/
theorem C8_failures_recovered_locally (e : EngineCfg) (prov : Provider) (store : Store)
    (plan : Plan) (newState : StateMap) (hdry : e.dryRun = false) :
    executionFaultModel e prov store plan newState ∧ fatalErrorTaxonomy e store prov := by
  constructor
  · unfold executionFaultModel
    rw [executePlan_eq e prov store plan newState hdry]
    by_cases hf : createFailures prov plan.create ++ deleteFailures prov plan.delete = []
    · rw [if_pos hf]
      cases store.saveErr <;> simp [hf]
    · rw [if_neg hf]
      simp [hf]
  · intro domains now h
    exact reconcile_err_taxonomy e store prov domains now h

/-- Engine configuration of the C8 witness. -/
def engC8 : EngineCfg := ⟨false, [], "o", ["example.com"]⟩

/-- Provider of the C8 witness: the create of the record named `bad` fails,
everything else succeeds. -/
def provC8 : Provider :=
  ⟨fun _ => Except.ok [],
   fun _ r => if r.name = "bad" then some "boom" else none,
   fun _ _ => none⟩

/-- Store of the C8 witness. -/
def storeC8 : Store := ⟨[], none, none⟩

/-- Plan of the C8 witness: a failing create followed by a succeeding one. -/
def planC8 : Plan :=
  ⟨[⟨"bad", "A", "1.2.3.4", "example.com", 3600⟩,
    ⟨"okr", "A", "1.2.3.5", "example.com", 3600⟩], [], []⟩

/-- C8 witness at a concrete failing-create input. -/
theorem C8_failures_recovered_locally_witness :
    engC8.dryRun = false ∧
    (executionFaultModel engC8 provC8 storeC8 planC8 [] ∧
      fatalErrorTaxonomy engC8 storeC8 provC8) :=
  ⟨rfl, C8_failures_recovered_locally engC8 provC8 storeC8 planC8 [] rfl⟩

/-! ## Claim C4 -/

/-- C4: when every host's upstream in the freshly built current state agrees
with the previously persisted state, the diff is empty and the engine
short-circuits: empty results, nil error, no provider call (the trace is just
the state load) and no state write. -/
theorem C4_idempotent_short_circuit (e : EngineCfg) (store : Store) (prov : Provider)
    (domains : List DomainConfig) (now : Int)
    (hload : store.loadErr = none)
    (hsame : ∀ h : String,
      (alookup (buildCurrentState domains now) h).map DomainState.serverName =
        (alookup store.content h).map DomainState.serverName) :
    compareStates (buildCurrentState domains now) store.content = ⟨[], []⟩ ∧
    Reconcile e store prov domains now =
      ⟨emptyResults, none, [Call.loadState], store.content⟩ := by
  have hadded : addedLoop store.content (buildCurrentState domains now) = [] := by
    apply addedLoop_eq_nil
    intro e hmem
    obtain ⟨host, v⟩ := e
    have hcur : alookup (buildCurrentState domains now) host = some v :=
      alookup_eq_of_mem_nodup (nodupKeys_buildCurrentState domains now) hmem
    have hs := hsame host
    rw [hcur] at hs
    cases hprev : alookup store.content host with
    | none =>
      rw [hprev] at hs
      cases hs
    | some p =>
      rw [hprev] at hs
      refine ⟨p, rfl, ?_⟩
      injection hs with hs
      exact hs.symm
  have hremoved : removedLoop (buildCurrentState domains now) store.content = [] := by
    apply removedLoop_eq_nil
    intro e hmem
    obtain ⟨host, v⟩ := e
    have hp : (alookup store.content host).isSome := alookup_isSome_of_mem hmem
    have hs := hsame host
    cases hcur : alookup (buildCurrentState domains now) host with
    | some _ => simp
    | none =>
      rw [hcur] at hs
      cases hprev : alookup store.content host with
      | none =>
        rw [hprev] at hp
        cases hp
      | some p =>
        rw [hprev] at hs
        cases hs
  have hcmp : compareStates (buildCurrentState domains now) store.content = ⟨[], []⟩ := by
    unfold compareStates
    rw [hadded, hremoved]
  refine ⟨hcmp, ?_⟩
  unfold Reconcile
  split
  · rename_i msg hl
    rw [hload] at hl
    cases hl
  · unfold reconcileAfterLoad
    rw [hcmp]
    rfl

/-- Store of the C4 witness: both the persisted state and the desired list
are empty, so the states trivially agree. -/
def storeC4 : Store := ⟨[], none, none⟩

/-- Engine configuration of the C4 witness. -/
def engC4 : EngineCfg := ⟨false, [], "o", ["example.com"]⟩

/-- Provider of the C4 witness; its answers are never consulted. -/
def provC4 : Provider := ⟨fun _ => Except.ok [], fun _ _ => none, fun _ _ => none⟩

/-- C4 witness: with equal current and persisted states the run
short-circuits after the load. -/
theorem C4_idempotent_short_circuit_witness :
    storeC4.loadErr = none ∧
    (∀ h : String,
      (alookup (buildCurrentState [] 0) h).map DomainState.serverName =
        (alookup storeC4.content h).map DomainState.serverName) ∧
    (compareStates (buildCurrentState [] 0) storeC4.content = ⟨[], []⟩ ∧
      Reconcile engC4 storeC4 provC4 [] 0 =
        ⟨emptyResults, none, [Call.loadState], storeC4.content⟩) :=
  ⟨rfl, fun _ => rfl, C4_idempotent_short_circuit engC4 storeC4 provC4 [] 0 rfl (fun _ => rfl)⟩

/-! ## Claim C10 -/

/-- C10: the current state built from the caller-supplied domain list has
Go-map overwrite semantics — the binding for a host is exactly the last
descriptor with that host in the list (mapped to its upstream and the common
timestamp), so earlier duplicates are ignored. -/
theorem C10_last_descriptor_wins (domains : List DomainConfig) (now : Int) (h : String) :
    alookup (buildCurrentState domains now) h =
      (domains.reverse.find? (fun d => d.host == h)).map (fun d => ⟨d.upstream, now⟩) := by
  unfold buildCurrentState
  rw [buildStateLoop_alookup]
  cases domains.reverse.find? (fun d => d.host == h) with
  | some d => rfl
  | none => rfl

end CaddyDnsSync
